import Mathlib

/-!
Verification model of the rag_scrape_pipeline ingestion core.

Shallow embedding of:
* `rag_pipeline/processing/sliding_window.py` — sliding-window chunker
  (`create_windows`, `_sanitize_ai_output`, `extract_from_window`,
  `deduplicate_extracts`);
* `rag_pipeline/database/models.py` plus migrations 001/002 — the
  `document_ingestion_state` row and `generate_document_id` /
  `compute_content_hash`;
* `rag_pipeline/automation/orchestrator.py` — change detection
  (`_sp_item_needs_processing`, `_should_process_url`, the URL branch of
  `_detect_changes`) and per-document reconciliation (`_ingest_to_rag`);
* `rag_pipeline/output_json.py` — canonical document/section id and hash
  derivation;
* `rag_pipeline/automation/locking.py` — `DistributedLock._acquire` and
  `_clean_stale_locks` over the `ingestion_locks` table.

External collaborators are parameters: SHA-256 digests are an abstract
`sha : String → String` (claims that need collision-freedom assume
injectivity), the tiktoken tokenizer is an abstract encode/decode pair,
and the AI normalization call is `ai : String → Option String` where
`none` models a raised exception. Timestamps are `Nat`. Python `str` is
Lean `String` (char-level operations work on the underlying `List Char`).
-/

set_option autoImplicit false

/-- ASCII whitespace as stripped by Python `str.strip()` / matched by
regex whitespace classes (space, tab, newline, carriage return,
vertical tab, form feed). -/
def isPyWs (c : Char) : Bool :=
  c = ' ' || c = '\t' || c = '\n' || c = '\r' || c = '\x0b' || c = '\x0c'

/-- Python `str.strip()` on the character list: remove leading and
trailing whitespace. -/
def pyStripL (s : List Char) : List Char :=
  ((s.dropWhile isPyWs).reverse.dropWhile isPyWs).reverse

/-- Python `str.strip()`. -/
def pyStrip (s : String) : String :=
  ⟨pyStripL s.data⟩

/-- One sliding window as built by `SlidingWindowParser.create_windows`:
the token slice together with its start and end token indices. The
window text of the Python code is the tokenizer decode of `toks`; the
tokenizer is an external collaborator, so the window is kept at token
level here. -/
structure Window (τ : Type) where
  toks : List τ
  start : Nat
  stop : Nat
  deriving DecidableEq, Repr

/-- The `while start < total_tokens` loop body of
`SlidingWindowParser.create_windows` (sliding_window.py lines 103-112):
`end = min(start + window_size, total_tokens)`; emit the slice; stop
when `end >= total_tokens`, else continue from `start = end - overlap`.
The loop is unguarded in the source, so it is embedded with explicit
fuel: `none` means the fuel ran out with the loop still running (which
is how a non-terminating parameter choice such as `overlap ≥
window_size` shows up in the model). -/
def createWindowsAux {τ : Type} (w o : Nat) (tokens : List τ) (start fuel : Nat) :
    Option (List (Window τ)) :=
  if start < tokens.length then
    match fuel with
    | 0 => none
    | fuel' + 1 =>
      let e := min (start + w) tokens.length
      let win : Window τ := ⟨(tokens.drop start).take (e - start), start, e⟩
      if tokens.length ≤ e then
        some [win]
      else
        (createWindowsAux w o tokens (e - o) fuel').map (win :: ·)
  else
    some []

/-- Model of `SlidingWindowParser.create_windows` on an already-tokenized text,
with fuel `tokens.length` (shown sufficient whenever
`overlap < window_size`). -/
def createWindows {τ : Type} (w o : Nat) (tokens : List τ) : Option (List (Window τ)) :=
  createWindowsAux w o tokens 0 tokens.length

/-- Case-insensitive match of `pat` against a prefix of `s`
(Python regex with `re.IGNORECASE`). -/
def matchCI : List Char → List Char → Bool
  | [], _ => true
  | _ :: _, [] => false
  | p :: ps, c :: cs => p.toLower = c.toLower && matchCI ps cs

/-- Index of the leftmost case-insensitive occurrence of `pat` in `s`. -/
def findCI (pat : List Char) : List Char → Option Nat
  | [] => if matchCI pat [] then some 0 else none
  | c :: cs => if matchCI pat (c :: cs) then some 0 else (findCI pat cs).map (· + 1)

/-- Model of the Python regex substitution that deletes an opening tag, a
shortest span, and a closing tag, case-insensitively with dot matching
newlines: remove the leftmost opening tag together with the shortest span up to
the next closing tag, then continue scanning after the removed span
(models the `<think>`/`<analysis>` block stripping in
`_sanitize_ai_output`). Fuel-bounded; for the nonempty tags used below
`s.length` fuel always suffices. -/
def removeBlocksFuel (opn cls : List Char) : Nat → List Char → List Char
  | 0, s => s
  | fuel + 1, s =>
    match findCI opn s with
    | none => s
    | some i =>
      let rest := (s.drop (i + opn.length))
      match findCI cls rest with
      | none => s
      | some j =>
        s.take i ++ removeBlocksFuel opn cls fuel (rest.drop (j + cls.length))

/-- Tag-block removal with default fuel. -/
def removeBlocks (opn cls : List Char) (s : List Char) : List Char :=
  removeBlocksFuel opn cls s.length s

/-- One anchored, case-insensitive leading-phrase substitution step of
`_sanitize_ai_output` (start anchor, the phrase word, one optional
comma or colon, then any run of whitespace): if `word` matches at the
start, drop it, drop the optional literal character when present, and
drop the following whitespace. -/
def stripPhrase (word : List Char) (optC : Option Char) (s : List Char) : List Char :=
  if matchCI word s then
    let rest := s.drop word.length
    let rest2 :=
      match optC with
      | none => rest
      | some c =>
        match rest with
        | [] => []
        | r :: rs => if r.toLower = c.toLower then rs else r :: rs
    rest2.dropWhile isPyWs
  else
    s

/-- The six leading conversational-phrase patterns of
`_sanitize_ai_output`, applied in source order. -/
def stripLeadingPhrases (s : List Char) : List Char :=
  let s1 := stripPhrase ("okay".data) (some ',') s
  let s2 := stripPhrase ("sure".data) (some ',') s1
  let s3 := stripPhrase ("here is the extracted content".data) (some ':') s2
  let s4 := stripPhrase ("here\x27s the extracted content".data) (some ':') s3
  let s5 := stripPhrase ("the extracted content is".data) (some ':') s4
  stripPhrase ("extracted content".data) (some ':') s5

/-- Model of `SlidingWindowParser._sanitize_ai_output(text, fallback_text)`
(sliding_window.py lines 116-155): empty input falls back to the
stripped fallback; otherwise strip think/analysis blocks and leading
phrases, trim, and fall back to the stripped fallback if the result is
empty. -/
def sanitizeAiOutput (text fallback : String) : String :=
  if text = "" then pyStrip fallback
  else
    let r1 := removeBlocks ("<think>".data) ("</think>".data) text.data
    let r2 := removeBlocks ("<analysis>".data) ("</analysis>".data) r1
    let r3 := pyStripL (stripLeadingPhrases r2)
    if r3 = [] then pyStrip fallback else ⟨r3⟩

/-- Model of `SlidingWindowParser.extract_from_window` (sliding_window.py lines
157-199) with the AI collaborator call abstracted: `aiResult = some raw`
is a returned `chat_completion` response, `none` models the call raising
an exception. The success path sanitizes the response with the window
text as fallback; the exception path returns the window's own text
stripped of surrounding whitespace (`return [window_text.strip()]`). -/
def extractFromWindow (aiResult : Option String) (windowText : String) : List String :=
  match aiResult with
  | some raw => [sanitizeAiOutput raw windowText]
  | none => [pyStrip windowText]

/-- Collapse each whitespace run to a single space (the whitespace regex
substitution used by `deduplicate_extracts`). -/
def collapseWs : List Char → List Char
  | [] => []
  | c :: cs =>
    if isPyWs c then ' ' :: collapseWs (cs.dropWhile isPyWs)
    else c :: collapseWs cs
termination_by s => s.length
decreasing_by
  · simp only [List.length_cons]
    exact Nat.lt_succ_of_le (List.Sublist.length_le (List.dropWhile_sublist _))
  · simp

/-- The normalization key of `deduplicate_extracts`: the extract
lowercased, stripped, and whitespace-collapsed. -/
def dedupKey (x : String) : List Char :=
  collapseWs (pyStripL (x.data.map Char.toLower))

/-- The seen-set loop of `SlidingWindowParser.deduplicate_extracts`
(sliding_window.py lines 280-288): keep an extract when its normalized
key is unseen and the raw extract has at least 30 characters. -/
def dedupAux (seen : List (List Char)) : List String → List String
  | [] => []
  | x :: xs =>
    let n := dedupKey x
    if n ∈ seen then dedupAux seen xs
    else if 30 ≤ x.length then x :: dedupAux (n :: seen) xs
    else dedupAux seen xs

/-- Model of `SlidingWindowParser.deduplicate_extracts`. -/
def deduplicateExtracts (xs : List String) : List String :=
  dedupAux [] xs

/-- Take the first `n` characters of a string (Python slicing `s[:n]`). -/
def strTake (n : Nat) (s : String) : String :=
  ⟨s.data.take n⟩

/-- Python slicing `s[a:b]`. -/
def strSlice (s : String) (a b : Nat) : String :=
  ⟨(s.data.drop a).take (b - a)⟩

/-- Python `s.split("/")[-1]`: the suffix after the last slash. -/
def lastPathComponent (s : String) : String :=
  ⟨(s.data.reverse.takeWhile (fun c => c ≠ '/')).reverse⟩

/-- One row of `document_ingestion_state`: the columns of
`DocumentIngestionState` in `database/models.py` together with the
columns added by migrations 001 and 002 (`rag_vector_id`,
`rag_namespace`, `rag_last_ingested_at`, `rag_ingestion_status` —
default `pending` —, `rag_error_message`, `rag_retry_count` — default
0 —, `sections_processed`, `sections_total`, `last_seen_at`,
`rag_vector_ids`). The `rag_vector_ids` TEXT column stores a JSON array
of strings and is modeled as the list it encodes; `rag_error_message`
stores the JSON-encoded error list and is modeled as the list of failed
section ids. The auto-increment surrogate `id` column is omitted. -/
structure DocState where
  document_id : String
  content_hash : Option String
  last_processed_at : Option Nat
  last_content_update_at : Option Nat
  last_seen_at : Option Nat
  file_name : Option String
  url : Option String
  rag_vector_id : Option String
  rag_namespace : Option String
  rag_last_ingested_at : Option Nat
  rag_ingestion_status : String
  rag_error_message : Option (List String)
  rag_retry_count : Nat
  rag_vector_ids : Option (List String)
  sections_processed : Nat
  sections_total : Nat
  deriving DecidableEq, Repr

/-- Model of `DocumentIngestionState.generate_document_id(title, url, content)`
(models.py lines 87-103): hash `title + url + content[:100]` (absent
parts contribute nothing) and format the truncated digest as a UUID.
`docHash` abstracts the external `sha256 → first 16 bytes → UUID`
derivation; claims that need distinct inputs to give distinct ids
assume it injective (collision-freedom of the truncated hash). -/
def generateDocumentId (docHash : String → String) (title : String)
    (url : Option String) (content : Option String) : String :=
  docHash (title ++ url.getD "" ++ ((content.map (strTake 100)).getD ""))

/-- Model of `DocumentIngestionState.compute_content_hash` (models.py lines
64-69): `None` for empty content, else the SHA-256 digest, abstracted
by `sha`. -/
def computeContentHash (sha : String → String) (content : String) : Option String :=
  if content = "" then none else some (sha content)

/-- The document id computed by SharePoint change detection
(orchestrator.py lines 233-236): `generate_document_id(title=sp_item.name,
url=sp_item.url)`. -/
def spDetectionDocumentId (docHash : String → String) (name url : String) : String :=
  generateDocumentId docHash name (some url) none

/-- The document id computed by reconciliation (orchestrator.py lines
624-627): `generate_document_id(title=source_uri, url=source_uri)`. -/
def ingestionDocumentId (docHash : String → String) (sourceUri : String) : String :=
  generateDocumentId docHash sourceUri (some sourceUri) none

/-- Model of `IngestionOrchestrator._sp_item_needs_processing` (orchestrator.py
lines 311-346): force wins; no row or a row with NULL
`last_processed_at` needs processing; otherwise compare the Graph API
`lastModifiedDateTime` (strictly newer wins). `existing` is the row
found under the detection-side document id, `lastModified` the
manifest timestamp. -/
def spItemNeedsProcessing (force : Bool) (existing : Option DocState)
    (lastModified : Option Nat) : Bool :=
  if force then true
  else
    match existing with
    | none => true
    | some ex =>
      match ex.last_processed_at with
      | none => true
      | some lp =>
        match lastModified with
        | some lm => decide (lp < lm)
        | none => false

/-- Model of `IngestionOrchestrator._should_process_url` (orchestrator.py lines
348-374): force wins; no row needs processing; otherwise process iff
the hash of the freshly scraped content differs from the stored
`content_hash`. -/
def shouldProcessUrl (sha : String → String) (force : Bool) (content : String)
    (existing : Option DocState) : Bool :=
  if force then true
  else
    match existing with
    | none => true
    | some ex => decide (computeContentHash sha content ≠ ex.content_hash)

/-- The URL branch of `IngestionOrchestrator._detect_changes`
(orchestrator.py lines 258-307) for one URL, given the scrape outcome
(`none` models a scrape error): a failed, empty or under-100-character
scrape is skipped (only `last_seen_at` is touched), otherwise
`_should_process_url` decides whether the document enters
`documents_to_process`. -/
def urlChangeDecision (sha : String → String) (force : Bool)
    (scrape : Option String) (existing : Option DocState) : Bool :=
  match scrape with
  | none => false
  | some text =>
    if text = "" || (pyStrip text).length < 100 then false
    else shouldProcessUrl sha force text existing

/-- Model of `_generate_doc_id` in output_json.py: the doc prefix plus the
first 12 characters of the uri digest
(hexdigest abstracted by `sha`). -/
def canonicalDocId (sha : String → String) (uri : String) : String :=
  "doc_" ++ strTake 12 (sha uri)

/-- Zero-pad to three digits, Python `f"{idx:03d}"` for `idx ≥ 0`. -/
def pad3 (n : Nat) : String :=
  let d := toString n
  if d.length < 3 then ⟨List.replicate (3 - d.length) '0'⟩ ++ d else d

/-- Model of `_generate_section_id` in output_json.py:
`"sec_" + doc_id[4:16] + "_" + f"{index:03d}"`. -/
def canonicalSectionId (docId : String) (idx : Nat) : String :=
  "sec_" ++ strSlice docId 4 16 ++ "_" ++ pad3 idx

/-- One canonical section as consumed by `_ingest_to_rag`: the
`section_id`, `text` and `section_hash` fields built by
`write_canonical_json` (other canonical fields are not read by the
reconciler). -/
structure CSection where
  section_id : String
  text : String
  section_hash : String
  deriving DecidableEq, Repr

/-- The section list built by `write_canonical_json` (output_json.py
lines 85-116) for one document from its extract texts: ids are indexed
from 1, the hash is the prefixed digest of the section text. -/
def buildSections (sha : String → String) (uri : String) (texts : List String) :
    List CSection :=
  let docId := canonicalDocId sha uri
  texts.enum.map (fun p =>
    ⟨canonicalSectionId docId (p.1 + 1), p.2, "sha256:" ++ sha p.2⟩)

/-- A successful `store_document` response as used by `_ingest_to_rag`:
the REDCap RAG EM API returns `vector_id` and `namespace` on success
(rag_client.py). `nspace` renames the Python `namespace` key, a Lean
keyword. -/
structure StoreResult where
  vector_id : String
  nspace : String
  deriving DecidableEq, Repr

/-- The previously recorded vector-store key set loaded by
`_ingest_to_rag` (orchestrator.py lines 661-670): the JSON array
`rag_vector_ids` read as a set, plus the legacy single `rag_vector_id`
when present. The Python `set` is modeled as a duplicate-free list;
only membership matters downstream. -/
def oldVectorIds (r : DocState) : List String :=
  let base := (r.rag_vector_ids.getD []).dedup
  match r.rag_vector_id with
  | some v => if v ∈ base then base else base ++ [v]
  | none => base

/-- The get-or-create step of `_ingest_to_rag` (orchestrator.py lines
629-659): compute `content_hash` over the concatenated section texts
(`"".join`), then either create a fresh row (unset columns take the
migration defaults) or update the existing one, both with status
`processing`. -/
def upsertProcessing (docHash sha : String → String) (now : Nat) (sourceUri : String)
    (texts : List String) (prior : Option DocState) : DocState :=
  let documentId := ingestionDocumentId docHash sourceUri
  let h := sha (String.join texts)
  match prior with
  | none =>
    { document_id := documentId
      content_hash := some h
      last_processed_at := some now
      last_content_update_at := some now
      last_seen_at := none
      file_name := if sourceUri = "" then none else some (lastPathComponent sourceUri)
      url := some sourceUri
      rag_vector_id := none
      rag_namespace := none
      rag_last_ingested_at := none
      rag_ingestion_status := "processing"
      rag_error_message := none
      rag_retry_count := 0
      rag_vector_ids := none
      sections_processed := 0
      sections_total := texts.length }
  | some p =>
    { p with
      content_hash := some h
      last_content_update_at := some now
      rag_ingestion_status := "processing"
      sections_total := texts.length
      last_processed_at := some now }

/-- Running state of the per-section ingest loop of `_ingest_to_rag`
(orchestrator.py lines 672-707): the mutated row, the success count,
the collected new vector ids (in section order) and the failed section
ids. -/
structure SectionLoopState where
  record : DocState
  succeeded : Nat
  newIds : List String
  errs : List String
  deriving DecidableEq, Repr

/-- One iteration of the per-section ingest loop: a successful `store`
call appends its vector id (the first success also sets the legacy
`rag_vector_id` / `rag_namespace` columns); a raised call records the
section id as an error and continues. -/
def sectionStep (store : CSection → Option StoreResult) (st : SectionLoopState)
    (s : CSection) : SectionLoopState :=
  match store s with
  | some res =>
    let record' :=
      if st.succeeded = 0 then
        { st.record with rag_vector_id := some res.vector_id,
                         rag_namespace := some res.nspace }
      else st.record
    { record := record', succeeded := st.succeeded + 1,
      newIds := st.newIds ++ [res.vector_id], errs := st.errs }
  | none =>
    { st with errs := st.errs ++ [s.section_id] }

/-- Per-document result of `_ingest_to_rag`: the committed row and the
vector ids on which `delete_document` was invoked. -/
structure IngestOutcome where
  record : DocState
  deletes : List String
  deriving DecidableEq, Repr

/-- Outcome classification and final bookkeeping of `_ingest_to_rag`
(orchestrator.py lines 709-775): set `sections_processed` and
`rag_last_ingested_at`; on full success persist the new id list, reset
the retry count and delete every old key not in the new set; on any
failure increment the retry count, keep `rag_vector_ids` untouched,
delete nothing, and escalate to `permanently_failed` when the count
reaches `DEFAULT_MAX_RETRIES`; finally overwrite `content_hash` with
the hash of the `"\n\n"`-joined section texts. The Python set
difference `old_ids - new_set` is modeled as a filter over the
duplicate-free old list. -/
def ingestFinish (sha : String → String) (maxRetries now : Nat) (texts : List String)
    (nSections : Nat) (old : List String) (st : SectionLoopState) : IngestOutcome :=
  let r1 := { st.record with sections_processed := st.succeeded,
                             rag_last_ingested_at := some now }
  let step :=
    if st.succeeded = nSections then
      ({ r1 with rag_ingestion_status := "completed",
                 rag_error_message := none,
                 rag_retry_count := 0,
                 rag_vector_ids := some st.newIds },
       old.filter (fun v => decide (v ∉ st.newIds)))
    else
      let retry := r1.rag_retry_count + 1
      ({ r1 with
           rag_ingestion_status :=
             if maxRetries ≤ retry then "permanently_failed" else "failed",
           rag_error_message := some (st.errs.take 5),
           rag_retry_count := retry },
       ([] : List String))
  { record := { step.1 with
        content_hash := computeContentHash sha (String.intercalate "\n\n" texts),
        last_content_update_at := some now },
    deletes := step.2 }

/-- The per-document body of `IngestionOrchestrator._ingest_to_rag`
(orchestrator.py lines 610-789) for one canonical document: documents
without sections are skipped (`none`); otherwise upsert the row, load
the old vector-id set, run the per-section store loop and classify the
outcome. The per-document commit and the run-level counters are not
modeled; `store` is the vector-store collaborator (`none` models a
raised `store_document` call). -/
def ingestDoc (docHash sha : String → String) (maxRetries now : Nat)
    (sourceUri : String) (sections : List CSection)
    (store : CSection → Option StoreResult)
    (prior : Option DocState) : Option IngestOutcome :=
  if sections = [] then none
  else
    let texts := sections.map (fun s => s.text)
    let r0 := upsertProcessing docHash sha now sourceUri texts prior
    some (ingestFinish sha maxRetries now texts sections.length (oldVectorIds r0)
      (sections.foldl (sectionStep store) ⟨r0, 0, [], []⟩))

/-- The section-production path of `run_pipeline` for one external URL
whose scraped text is `text` (main.py `process_page_content` →
`SlidingWindowParser.process_file`, the normal sliding-window mode):
tokenize, window, run each window through the AI extraction with
raw-text fallback, then deduplicate. `enc`/`dec` abstract the tiktoken
tokenizer, `ai` the `chat_completion` collaborator. `none` propagates
a non-terminating window-loop parameterization. -/
def processUrlText {τ : Type} (ai : String → Option String) (enc : String → List τ)
    (dec : List τ → String) (w o : Nat) (text : String) : Option (List String) :=
  (createWindows w o (enc text)).map (fun ws =>
    deduplicateExtracts (ws.flatMap (fun win =>
      extractFromWindow (ai (dec win.toks)) (dec win.toks))))

/-- One row of the `ingestion_locks` table (migration 001): primary key
`lock_key`, owner identity, acquisition and expiry timestamps. -/
structure LockRow where
  lock_key : String
  acquired_by : String
  acquired_at : Nat
  expires_at : Nat
  deriving DecidableEq, Repr

/-- Result of `DistributedLock._acquire`: either the lock was inserted
(with the resulting table state) or `LockAlreadyHeld` was raised
carrying the current owner, acquisition time and expiry. -/
inductive AcquireResult where
  | acquired (store : List LockRow)
  | alreadyHeld (owner : String) (acquiredAt expiresAt : Nat) (store : List LockRow)
  deriving DecidableEq, Repr

/-- Model of `DistributedLock._clean_stale_locks` (locking.py lines 76-90):
delete every row whose `expires_at` has passed. -/
def cleanStaleLocks (now : Nat) (store : List LockRow) : List LockRow :=
  store.filter (fun r => !(decide (r.expires_at < now)))

/-- The insert-or-handle-conflict body of `DistributedLock._acquire`
(locking.py lines 102-149): a free key is inserted; a conflicting row
that has expired is deleted (by primary key) and acquisition retries
recursively; an unexpired conflicting row raises `LockAlreadyHeld`
with its owner and expiry. Termination: each retry removes the
conflicting row, so the table shrinks. -/
def acquireLoop (key owner : String) (now ttl : Nat) (store : List LockRow) :
    AcquireResult :=
  match h : store.find? (fun r => r.lock_key == key) with
  | none => .acquired (⟨key, owner, now, now + ttl⟩ :: store)
  | some row =>
    if row.expires_at < now then
      acquireLoop key owner now ttl (store.filter (fun r => !(r.lock_key == key)))
    else
      .alreadyHeld row.acquired_by row.acquired_at row.expires_at store
termination_by store.length
decreasing_by
  refine List.length_filter_lt_length_iff_exists.mpr ⟨row, List.mem_of_find?_eq_some h, ?_⟩
  simp [List.find?_some h]

/-- Model of `DistributedLock._acquire` (locking.py lines 92-154): clean stale
rows first, then attempt acquisition. The sequential model runs the
whole call at one instant `now`; the `else` race branch of the source
(row vanished between conflict and re-read) cannot occur without
interleaving and is therefore not reachable here. -/
def acquire (key owner : String) (now ttl : Nat) (store : List LockRow) : AcquireResult :=
  acquireLoop key owner now ttl (cleanStaleLocks now store)

/-- Character-level stand-in for the tiktoken encoder (tokens are the
characters themselves, a lossless tokenizer instance). -/
def charEnc : String → List Char :=
  String.data

/-- Character-level stand-in for the tiktoken decoder; inverse of
`charEnc`. -/
def charDec : List Char → String :=
  String.mk

/-- An AI collaborator instance that returns its input verbatim
(the "content is already clean, return it as-is" behavior the prompt
requests). -/
def identityAi : String → Option String :=
  fun t => some t

/-- A vector-store collaborator instance whose `store_document` call
always raises. -/
def alwaysFailStore : CSection → Option StoreResult :=
  fun _ => none

/-- A vector-store collaborator instance that always succeeds with a
fixed vector id and namespace. -/
def alwaysOkStore : CSection → Option StoreResult :=
  fun _ => some ⟨"v1", "ns"⟩

/-- Sample external URL used by the concrete scenarios. -/
def exUri : String := "https://example.org/page"

/-- 100 `a` characters: a minimal scraped text passing the
100-character change-detection threshold. -/
def aText : String := ⟨List.replicate 100 'a'⟩

/-- 100 `b` characters: a changed scrape of the same length. -/
def bText : String := ⟨List.replicate 100 'b'⟩

/-- The text `aText` with a trailing space: an unchanged dirty scrape whose
sanitized section text (`aText`) differs from the raw text. -/
def cText : String := aText ++ " "

/-- A sample canonical section. -/
def sampleSection : CSection := ⟨"s1", "body text of the only section", "h1"⟩

/-- A prior state row that has already failed twice (retry count 2 of
ceiling 3), with a committed vector-id set from its last success. -/
def priorFailedTwice : DocState :=
  { document_id := "d1"
    content_hash := some "h0"
    last_processed_at := some 1
    last_content_update_at := some 1
    last_seen_at := none
    file_name := none
    url := some exUri
    rag_vector_id := none
    rag_namespace := none
    rag_last_ingested_at := some 1
    rag_ingestion_status := "failed"
    rag_error_message := none
    rag_retry_count := 2
    rag_vector_ids := some ["v0"]
    sections_processed := 0
    sections_total := 1 }

/-- A prior state row with a committed set `{v0, vx}` (JSON array plus
legacy single id) used to exercise stale-vector cleanup. -/
def priorCompleted : DocState :=
  { document_id := "d2"
    content_hash := some "h0"
    last_processed_at := some 1
    last_content_update_at := some 1
    last_seen_at := none
    file_name := none
    url := some exUri
    rag_vector_id := some "vx"
    rag_namespace := some "ns"
    rag_last_ingested_at := some 1
    rag_ingestion_status := "completed"
    rag_error_message := none
    rag_retry_count := 0
    rag_vector_ids := some ["v0"]
    sections_processed := 1
    sections_total := 1 }

/-- Scenario (C4): first run of the unchanged URL `exUri` with scrape
`aText`, identity normalization and a vector store whose calls all
raise — the run that leaves the document in status `failed`. -/
def c4run : Option IngestOutcome :=
  (processUrlText identityAi charEnc charDec 25000 8000 aText).bind (fun ts =>
    ingestDoc id id 3 5 exUri (buildSections id exUri ts) alwaysFailStore none)

/-- Canonical sections of the C5 scenario document. -/
def c5secs : List CSection := buildSections id exUri [aText]

/-- Scenario (C5): three consecutive totally-failed reconciliations of
the same document with retry ceiling 3. -/
def c5run : Option IngestOutcome :=
  (ingestDoc id id 3 5 exUri c5secs alwaysFailStore none).bind (fun o1 =>
    (ingestDoc id id 3 6 exUri c5secs alwaysFailStore (some o1.record)).bind (fun o2 =>
      ingestDoc id id 3 7 exUri c5secs alwaysFailStore (some o2.record)))

/-- Scenario (C7): first, fully successful run of the URL `exUri` with
scrape `cText` (trailing whitespace) and identity normalization. -/
def c7run1 : Option IngestOutcome :=
  (processUrlText identityAi charEnc charDec 25000 8000 cText).bind (fun ts =>
    ingestDoc id id 3 5 exUri (buildSections id exUri ts) alwaysOkStore none)

/-- Scenario (C7): second run on the identical scrape `cText`, starting
from the state committed by the first run. -/
def c7run2 : Option IngestOutcome :=
  c7run1.bind (fun o1 =>
    (processUrlText identityAi charEnc charDec 25000 8000 cText).bind (fun ts =>
      ingestDoc id id 3 6 exUri (buildSections id exUri ts) alwaysOkStore
        (some o1.record)))

theorem createWindowsAux_stop {τ : Type} (w o : Nat) (tokens : List τ) (start fuel : Nat)
    (h : ¬ start < tokens.length) : createWindowsAux w o tokens start fuel = some [] := by
  rw [createWindowsAux.eq_def]
  simp [h]

theorem createWindowsAux_isSome {τ : Type} (w o : Nat) (tokens : List τ) (ho : o < w) :
    ∀ fuel start, tokens.length - start ≤ fuel →
      (createWindowsAux w o tokens start fuel).isSome := by
  intro fuel
  induction fuel with
  | zero =>
    intro start h
    rw [createWindowsAux_stop w o tokens start 0 (by omega)]
    rfl
  | succ fuel ih =>
    intro start h
    rw [createWindowsAux.eq_def]
    by_cases hs : start < tokens.length
    · by_cases he : tokens.length ≤ start + w
      · have h2 : tokens.length ≤ min (start + w) tokens.length := by omega
        simp [hs, h2]
      · have hmin : min (start + w) tokens.length = start + w := by omega
        simp only [hs, if_true, hmin]
        rw [if_neg he]
        simpa using ih (start + w - o) (by omega)
    · simp [hs]

theorem createWindowsAux_mem {τ : Type} (w o : Nat) (tokens : List τ) :
    ∀ fuel start ws, createWindowsAux w o tokens start fuel = some ws →
      ∀ win ∈ ws, win.stop = min (win.start + w) tokens.length ∧
        win.toks = (tokens.drop win.start).take (win.stop - win.start) := by
  intro fuel
  induction fuel with
  | zero =>
    intro start ws hws win hwin
    by_cases hs : start < tokens.length
    · rw [createWindowsAux.eq_def] at hws
      simp [hs] at hws
    · rw [createWindowsAux_stop w o tokens start 0 hs] at hws
      simp only [Option.some.injEq] at hws
      subst hws
      simp at hwin
  | succ fuel ih =>
    intro start ws hws win hwin
    by_cases hs : start < tokens.length
    · rw [createWindowsAux.eq_def] at hws
      simp only [hs, if_true] at hws
      by_cases he : tokens.length ≤ min (start + w) tokens.length
      · rw [if_pos he] at hws
        simp only [Option.some.injEq] at hws
        subst hws
        simp only [List.mem_singleton] at hwin
        subst hwin
        exact ⟨rfl, rfl⟩
      · rw [if_neg he] at hws
        rcases Option.map_eq_some'.mp hws with ⟨ws', hrec, rfl⟩
        rcases List.mem_cons.mp hwin with rfl | hwin'
        · exact ⟨rfl, rfl⟩
        · exact ih _ _ hrec win hwin'
    · rw [createWindowsAux_stop w o tokens start _ hs] at hws
      simp only [Option.some.injEq] at hws
      subst hws
      simp at hwin

theorem createWindowsAux_head {τ : Type} (w o : Nat) (tokens : List τ)
    (fuel start : Nat) (ws : List (Window τ))
    (hws : createWindowsAux w o tokens start fuel = some ws)
    (hs : start < tokens.length) :
    ∃ hd tl, ws = hd :: tl ∧ hd.start = start := by
  cases fuel with
  | zero =>
    rw [createWindowsAux.eq_def] at hws
    simp [hs] at hws
  | succ fuel =>
    rw [createWindowsAux.eq_def] at hws
    simp only [hs, if_true] at hws
    by_cases he : tokens.length ≤ min (start + w) tokens.length
    · rw [if_pos he] at hws
      simp only [Option.some.injEq] at hws
      subst hws
      exact ⟨_, _, rfl, rfl⟩
    · rw [if_neg he] at hws
      rcases Option.map_eq_some'.mp hws with ⟨ws', _, rfl⟩
      exact ⟨_, _, rfl, rfl⟩

theorem createWindowsAux_last {τ : Type} (w o : Nat) (tokens : List τ) :
    ∀ fuel start ws, createWindowsAux w o tokens start fuel = some ws →
      start < tokens.length →
      ∃ l, ws.getLast? = some l ∧ l.stop = tokens.length := by
  intro fuel
  induction fuel with
  | zero =>
    intro start ws hws hs
    rw [createWindowsAux.eq_def] at hws
    simp [hs] at hws
  | succ fuel ih =>
    intro start ws hws hs
    rw [createWindowsAux.eq_def] at hws
    simp only [hs, if_true] at hws
    by_cases he : tokens.length ≤ min (start + w) tokens.length
    · rw [if_pos he] at hws
      simp only [Option.some.injEq] at hws
      subst hws
      refine ⟨_, rfl, ?_⟩
      show min (start + w) tokens.length = tokens.length
      omega
    · rw [if_neg he] at hws
      rcases Option.map_eq_some'.mp hws with ⟨ws', hrec, rfl⟩
      have hs' : min (start + w) tokens.length - o < tokens.length := by omega
      rcases ih _ _ hrec hs' with ⟨l, hl, hstop⟩
      rcases createWindowsAux_head w o tokens _ _ _ hrec hs' with ⟨hd, tl, rfl, _⟩
      exact ⟨l, by rw [List.getLast?_cons_cons]; exact hl, hstop⟩

theorem createWindowsAux_chain {τ : Type} (w o : Nat) (tokens : List τ) :
    ∀ fuel start ws, createWindowsAux w o tokens start fuel = some ws →
      List.Chain' (fun a b : Window τ => b.start = a.stop - o) ws := by
  intro fuel
  induction fuel with
  | zero =>
    intro start ws hws
    by_cases hs : start < tokens.length
    · rw [createWindowsAux.eq_def] at hws
      simp [hs] at hws
    · rw [createWindowsAux_stop w o tokens start 0 hs] at hws
      simp only [Option.some.injEq] at hws
      subst hws
      exact List.chain'_nil
  | succ fuel ih =>
    intro start ws hws
    by_cases hs : start < tokens.length
    · rw [createWindowsAux.eq_def] at hws
      simp only [hs, if_true] at hws
      by_cases he : tokens.length ≤ min (start + w) tokens.length
      · rw [if_pos he] at hws
        simp only [Option.some.injEq] at hws
        subst hws
        exact List.chain'_singleton _
      · rw [if_neg he] at hws
        rcases Option.map_eq_some'.mp hws with ⟨ws', hrec, rfl⟩
        have hs' : min (start + w) tokens.length - o < tokens.length := by omega
        rcases createWindowsAux_head w o tokens _ _ _ hrec hs' with ⟨hd, tl, rfl, hhd⟩
        exact List.Chain'.cons (by simpa using hhd) (ih _ _ hrec)
    · rw [createWindowsAux_stop w o tokens start _ hs] at hws
      simp only [Option.some.injEq] at hws
      subst hws
      exact List.chain'_nil

theorem createWindowsAux_cover {τ : Type} (w o : Nat) (tokens : List τ) :
    ∀ fuel start ws, createWindowsAux w o tokens start fuel = some ws →
      ∀ p, start ≤ p → p < tokens.length →
        ∃ win ∈ ws, win.start ≤ p ∧ p < win.stop := by
  intro fuel
  induction fuel with
  | zero =>
    intro start ws hws p hp hpT
    rw [createWindowsAux.eq_def] at hws
    have hs : start < tokens.length := by omega
    simp [hs] at hws
  | succ fuel ih =>
    intro start ws hws p hp hpT
    have hs : start < tokens.length := by omega
    rw [createWindowsAux.eq_def] at hws
    simp only [hs, if_true] at hws
    by_cases he : tokens.length ≤ min (start + w) tokens.length
    · rw [if_pos he] at hws
      simp only [Option.some.injEq] at hws
      subst hws
      refine ⟨_, List.mem_singleton_self _, hp, ?_⟩
      show p < min (start + w) tokens.length
      omega
    · rw [if_neg he] at hws
      rcases Option.map_eq_some'.mp hws with ⟨ws', hrec, rfl⟩
      by_cases hpe : p < min (start + w) tokens.length
      · exact ⟨_, List.mem_cons_self _ _, hp, hpe⟩
      · rcases ih _ _ hrec p (by omega) hpT with ⟨win, hwin, h1, h2⟩
        exact ⟨win, List.mem_cons_of_mem _ hwin, h1, h2⟩

theorem createWindowsAux_len {τ : Type} (w o : Nat) (tokens : List τ) (ho : o < w) :
    ∀ fuel start ws, createWindowsAux w o tokens start fuel = some ws →
      ws.length ≤ (tokens.length - start + (w - o) - 1) / (w - o) := by
  intro fuel
  induction fuel with
  | zero =>
    intro start ws hws
    by_cases hs : start < tokens.length
    · rw [createWindowsAux.eq_def] at hws
      simp [hs] at hws
    · rw [createWindowsAux_stop w o tokens start 0 hs] at hws
      simp only [Option.some.injEq] at hws
      subst hws
      simp
  | succ fuel ih =>
    intro start ws hws
    by_cases hs : start < tokens.length
    · rw [createWindowsAux.eq_def] at hws
      simp only [hs, if_true] at hws
      have hk : 0 < w - o := by omega
      by_cases he : tokens.length ≤ min (start + w) tokens.length
      · rw [if_pos he] at hws
        simp only [Option.some.injEq] at hws
        subst hws
        simp only [List.length_singleton]
        rw [Nat.le_div_iff_mul_le hk]
        omega
      · rw [if_neg he] at hws
        rcases Option.map_eq_some'.mp hws with ⟨ws', hrec, rfl⟩
        have hmin : min (start + w) tokens.length = start + w := by omega
        have key : tokens.length - start + (w - o) - 1 =
            (tokens.length - (min (start + w) tokens.length - o) + (w - o) - 1) + (w - o) := by
          omega
        rw [List.length_cons, key, Nat.add_div_right _ hk]
        exact Nat.succ_le_succ (ih _ _ hrec)
    · rw [createWindowsAux_stop w o tokens start _ hs] at hws
      simp only [Option.some.injEq] at hws
      subst hws
      simp

/-- C8: for every text whose token list has length `T > 0`,
`create_windows` with `overlap < window_size` returns windows where the
first starts at token 0, each window ends at `min(start + window_size,
T)` and holds exactly that token slice, each subsequent window starts
exactly `overlap` tokens before the previous window's end, the last
window ends exactly at `T` (truncated, never padded), and every token
position in `[0, T)` is covered by at least one window. -/
theorem create_windows_spec {τ : Type} (w o : Nat) (tokens : List τ)
    (ho : o < w) (hT : 0 < tokens.length) :
    ∃ ws : List (Window τ), createWindows w o tokens = some ws ∧
      (∃ hd tl, ws = hd :: tl ∧ hd.start = 0) ∧
      (∀ win ∈ ws, win.stop = min (win.start + w) tokens.length ∧
        win.toks = (tokens.drop win.start).take (win.stop - win.start)) ∧
      List.Chain' (fun a b : Window τ => b.start = a.stop - o) ws ∧
      (∃ l, ws.getLast? = some l ∧ l.stop = tokens.length) ∧
      (∀ p, p < tokens.length → ∃ win ∈ ws, win.start ≤ p ∧ p < win.stop) := by
  have hsome := createWindowsAux_isSome w o tokens ho tokens.length 0 (by omega)
  rcases Option.isSome_iff_exists.mp hsome with ⟨ws, hws⟩
  refine ⟨ws, hws, ?_, ?_, ?_, ?_, ?_⟩
  · exact createWindowsAux_head w o tokens _ _ _ hws hT
  · exact createWindowsAux_mem w o tokens _ _ _ hws
  · exact createWindowsAux_chain w o tokens _ _ _ hws
  · exact createWindowsAux_last w o tokens _ _ _ hws hT
  · intro p hp
    exact createWindowsAux_cover w o tokens _ _ _ hws p (Nat.zero_le p) hp

/-- Witness for C8: the specification instantiated at window size 3,
overlap 1, and the five-token list `[10, 11, 12, 13, 14]`. -/
theorem create_windows_spec_witness :
    ∃ ws : List (Window Nat), createWindows 3 1 [10, 11, 12, 13, 14] = some ws ∧
      (∃ hd tl, ws = hd :: tl ∧ hd.start = 0) ∧
      (∀ win ∈ ws, win.stop = min (win.start + 3) ([10, 11, 12, 13, 14] : List Nat).length ∧
        win.toks = (([10, 11, 12, 13, 14] : List Nat).drop win.start).take (win.stop - win.start)) ∧
      List.Chain' (fun a b : Window Nat => b.start = a.stop - 1) ws ∧
      (∃ l, ws.getLast? = some l ∧ l.stop = ([10, 11, 12, 13, 14] : List Nat).length) ∧
      (∀ p, p < ([10, 11, 12, 13, 14] : List Nat).length →
        ∃ win ∈ ws, win.start ≤ p ∧ p < win.stop) :=
  create_windows_spec 3 1 [10, 11, 12, 13, 14] (by decide) (by decide)

/-- C10: the window-creation loop of `create_windows` terminates
whenever `overlap < window_size` (each iteration reaches the end of the
token list or advances the start index by `window_size - overlap > 0`),
and the number of windows for `T` tokens is bounded by
`ceil(T / (window_size - overlap))`. -/
theorem create_windows_terminates {τ : Type} (w o : Nat) (tokens : List τ)
    (ho : o < w) :
    ∃ ws : List (Window τ), createWindows w o tokens = some ws ∧
      ws.length ≤ (tokens.length + (w - o) - 1) / (w - o) := by
  have hsome := createWindowsAux_isSome w o tokens ho tokens.length 0 (by omega)
  rcases Option.isSome_iff_exists.mp hsome with ⟨ws, hws⟩
  refine ⟨ws, hws, ?_⟩
  have hlen := createWindowsAux_len w o tokens ho tokens.length 0 ws hws
  simpa using hlen

/-- Witness for C10: termination and the window-count bound at window
size 3, overlap 1, and a five-token list. -/
theorem create_windows_terminates_witness :
    ∃ ws : List (Window Nat), createWindows 3 1 [10, 11, 12, 13, 14] = some ws ∧
      ws.length ≤ (([10, 11, 12, 13, 14] : List Nat).length + (3 - 1) - 1) / (3 - 1) :=
  create_windows_terminates 3 1 [10, 11, 12, 13, 14] (by decide)

/-- C9 counterexample: for the window text `"  hello  "` whose
normalization call raises, the chunker returns `["hello"]` — the
window's text with surrounding whitespace stripped — not the raw text
unchanged, refuting "returns ... that window's own raw text unchanged
(untrimmed)". -/
theorem extract_fallback_counterexample :
    extractFromWindow none "  hello  " ≠ ["  hello  "] := by
  decide

/-- C9 (amended): for every window whose normalization collaborator
call raises an exception, the chunker returns a one-element list
containing that window's own raw text with only leading and trailing
whitespace stripped — the window is never dropped and its interior
content is unaltered (the original text is the returned text surrounded
by whitespace). -/
theorem extract_fallback_strips_only_whitespace (wtext : String) :
    extractFromWindow none wtext = [pyStrip wtext] ∧
    ∃ pre suf : List Char, (∀ c ∈ pre, isPyWs c = true) ∧ (∀ c ∈ suf, isPyWs c = true) ∧
      wtext.data = pre ++ (pyStrip wtext).data ++ suf := by
  refine ⟨rfl, wtext.data.takeWhile isPyWs,
    ((wtext.data.dropWhile isPyWs).reverse.takeWhile isPyWs).reverse, ?_, ?_, ?_⟩
  · intro c hc
    exact List.mem_takeWhile_imp hc
  · intro c hc
    exact List.mem_takeWhile_imp (List.mem_reverse.mp hc)
  · have h1 := List.takeWhile_append_dropWhile (p := isPyWs) (l := wtext.data)
    have h2 := List.takeWhile_append_dropWhile (p := isPyWs)
      (l := (wtext.data.dropWhile isPyWs).reverse)
    have hps : (pyStrip wtext).data =
        ((wtext.data.dropWhile isPyWs).reverse.dropWhile isPyWs).reverse := rfl
    rw [hps, List.append_assoc, ← List.reverse_append, h2, List.reverse_reverse]
    exact h1.symm

theorem sectionStep_record_vecids (store : CSection → Option StoreResult)
    (init : SectionLoopState) (s : CSection) :
    (sectionStep store init s).record.rag_vector_ids = init.record.rag_vector_ids := by
  unfold sectionStep
  cases store s with
  | none => rfl
  | some res => by_cases h0 : init.succeeded = 0 <;> simp [h0]

theorem sectionStep_record_retry (store : CSection → Option StoreResult)
    (init : SectionLoopState) (s : CSection) :
    (sectionStep store init s).record.rag_retry_count = init.record.rag_retry_count := by
  unfold sectionStep
  cases store s with
  | none => rfl
  | some res => by_cases h0 : init.succeeded = 0 <;> simp [h0]

theorem foldl_sectionStep_vecids (store : CSection → Option StoreResult) :
    ∀ (l : List CSection) (init : SectionLoopState),
      (l.foldl (sectionStep store) init).record.rag_vector_ids =
        init.record.rag_vector_ids := by
  intro l
  induction l with
  | nil => intro init; rfl
  | cons s l ih =>
    intro init
    rw [List.foldl_cons, ih, sectionStep_record_vecids]

theorem foldl_sectionStep_retry (store : CSection → Option StoreResult) :
    ∀ (l : List CSection) (init : SectionLoopState),
      (l.foldl (sectionStep store) init).record.rag_retry_count =
        init.record.rag_retry_count := by
  intro l
  induction l with
  | nil => intro init; rfl
  | cons s l ih =>
    intro init
    rw [List.foldl_cons, ih, sectionStep_record_retry]

theorem foldl_sectionStep_succeeded (store : CSection → Option StoreResult) :
    ∀ (l : List CSection) (init : SectionLoopState),
      (l.foldl (sectionStep store) init).succeeded =
        init.succeeded + l.countP (fun s => (store s).isSome) := by
  intro l
  induction l with
  | nil => intro init; simp
  | cons s l ih =>
    intro init
    rw [List.foldl_cons, ih, List.countP_cons]
    unfold sectionStep
    cases hs : store s with
    | none => simp [hs]
    | some res =>
      by_cases h0 : init.succeeded = 0 <;> simp [hs, h0] <;> omega

theorem foldl_sectionStep_newIds (store : CSection → Option StoreResult) :
    ∀ (l : List CSection) (init : SectionLoopState),
      (l.foldl (sectionStep store) init).newIds =
        init.newIds ++ l.filterMap (fun s => (store s).map (fun r => r.vector_id)) := by
  intro l
  induction l with
  | nil => intro init; simp
  | cons s l ih =>
    intro init
    rw [List.foldl_cons, ih, List.filterMap_cons]
    unfold sectionStep
    cases hs : store s with
    | none => simp [hs]
    | some res =>
      by_cases h0 : init.succeeded = 0 <;> simp [hs, h0]

theorem upsert_vecids (docHash sha : String → String) (now : Nat) (sourceUri : String)
    (texts : List String) (prior : Option DocState) :
    (upsertProcessing docHash sha now sourceUri texts prior).rag_vector_ids =
      prior.elim none (fun p => p.rag_vector_ids) := by
  cases prior <;> rfl

theorem upsert_retry (docHash sha : String → String) (now : Nat) (sourceUri : String)
    (texts : List String) (prior : Option DocState) :
    (upsertProcessing docHash sha now sourceUri texts prior).rag_retry_count =
      prior.elim 0 (fun p => p.rag_retry_count) := by
  cases prior <;> rfl

theorem upsert_vec_id (docHash sha : String → String) (now : Nat) (sourceUri : String)
    (texts : List String) (prior : Option DocState) :
    (upsertProcessing docHash sha now sourceUri texts prior).rag_vector_id =
      prior.elim none (fun p => p.rag_vector_id) := by
  cases prior <;> rfl

theorem upsert_oldVectorIds (docHash sha : String → String) (now : Nat) (sourceUri : String)
    (texts : List String) (prior : Option DocState) :
    oldVectorIds (upsertProcessing docHash sha now sourceUri texts prior) =
      prior.elim [] oldVectorIds := by
  cases prior with
  | none => rfl
  | some p =>
    unfold oldVectorIds
    rw [upsert_vecids, upsert_vec_id]
    rfl

/-- C1 counterexample: a document whose prior retry count is 2 (ceiling
3) and whose single section's store call fails ends the run with status
`permanently_failed`, not `failed` — refuting "the document's status is
set to failed" as stated for every failing document. -/
theorem ingest_failure_status_counterexample :
    (ingestDoc id id 3 5 exUri [sampleSection] alwaysFailStore
        (some priorFailedTwice)).map
      (fun out => out.record.rag_ingestion_status) = some "permanently_failed" ∧
    (ingestDoc id id 3 5 exUri [sampleSection] alwaysFailStore
        (some priorFailedTwice)).map
      (fun out => decide (out.record.rag_ingestion_status = "failed")) = some false := by
  constructor <;> rfl

/-- C1 (amended): for every document whose reconciliation partially or
totally fails (at least one section's store call raises), the stored
`rag_vector_ids` field is unchanged by the run, the retry count is
incremented by exactly 1, no delete call is issued to the vector store
for that document, and the status is set to `failed` — or to
`permanently_failed` when the incremented retry count reaches the
configured ceiling. -/
theorem ingest_failure_preserves_state
    (docHash sha : String → String) (maxRetries now : Nat) (sourceUri : String)
    (sections : List CSection) (store : CSection → Option StoreResult)
    (prior : Option DocState)
    (hne : sections ≠ [])
    (hfail : ∃ s ∈ sections, store s = none) :
    ∃ out, ingestDoc docHash sha maxRetries now sourceUri sections store prior = some out ∧
      out.record.rag_vector_ids = prior.elim none (fun p => p.rag_vector_ids) ∧
      out.record.rag_retry_count = prior.elim 0 (fun p => p.rag_retry_count) + 1 ∧
      (out.record.rag_ingestion_status = "failed" ∨
        (out.record.rag_ingestion_status = "permanently_failed" ∧
          maxRetries ≤ out.record.rag_retry_count)) ∧
      out.deletes = [] := by
  unfold ingestDoc
  rw [if_neg hne]
  refine ⟨_, rfl, ?_⟩
  have hsucc : (sections.foldl (sectionStep store)
      ⟨upsertProcessing docHash sha now sourceUri (sections.map (fun s => s.text)) prior,
        0, [], []⟩).succeeded ≠ sections.length := by
    rw [foldl_sectionStep_succeeded]
    intro hcount
    rcases hfail with ⟨s, hsmem, hsnone⟩
    have hall := List.countP_eq_length.mp (by simpa using hcount)
    have := hall s hsmem
    rw [hsnone] at this
    simp at this
  simp only [ingestFinish]
  rw [if_neg hsucc]
  refine ⟨?_, ?_, ?_, rfl⟩
  · show (sections.foldl (sectionStep store) _).record.rag_vector_ids =
      prior.elim none (fun p => p.rag_vector_ids)
    rw [foldl_sectionStep_vecids, upsert_vecids]
  · show (sections.foldl (sectionStep store) _).record.rag_retry_count + 1 =
      prior.elim 0 (fun p => p.rag_retry_count) + 1
    rw [foldl_sectionStep_retry, upsert_retry]
  · by_cases hceil : maxRetries ≤ (sections.foldl (sectionStep store)
        ⟨upsertProcessing docHash sha now sourceUri (sections.map (fun s => s.text)) prior,
          0, [], []⟩).record.rag_retry_count + 1
    · right
      constructor
      · show (if maxRetries ≤ _ + 1 then "permanently_failed" else "failed") = _
        rw [if_pos hceil]
      · show maxRetries ≤ _ + 1
        exact hceil
    · left
      show (if maxRetries ≤ _ + 1 then "permanently_failed" else "failed") = _
      rw [if_neg hceil]

/-- Witness for C1 (amended): the failure invariants instantiated at a
one-section document whose store call raises, with a prior row at retry
count 2. -/
theorem ingest_failure_preserves_state_witness :
    ∃ out, ingestDoc id id 3 5 exUri [sampleSection] alwaysFailStore
        (some priorFailedTwice) = some out ∧
      out.record.rag_vector_ids =
        (some priorFailedTwice).elim none (fun p => p.rag_vector_ids) ∧
      out.record.rag_retry_count =
        (some priorFailedTwice).elim 0 (fun p => p.rag_retry_count) + 1 ∧
      (out.record.rag_ingestion_status = "failed" ∨
        (out.record.rag_ingestion_status = "permanently_failed" ∧
          3 ≤ out.record.rag_retry_count)) ∧
      out.deletes = [] :=
  ingest_failure_preserves_state id id 3 5 exUri [sampleSection] alwaysFailStore
    (some priorFailedTwice) (by decide) ⟨sampleSection, List.mem_singleton_self _, rfl⟩

/-- C2: for every document whose sections all succeed reconciliation,
the run sets status `completed`, resets the retry count to 0, persists
exactly the new vector-id list (in section order) as `rag_vector_ids`,
and invokes delete on every key that was in the previously recorded id
set (the stored array plus the legacy single id) but not in the new
set, and on no other key. -/
theorem ingest_success_reconciles
    (docHash sha : String → String) (maxRetries now : Nat) (sourceUri : String)
    (sections : List CSection) (store : CSection → Option StoreResult)
    (prior : Option DocState)
    (hne : sections ≠ [])
    (hall : ∀ s ∈ sections, (store s).isSome) :
    ∃ out, ingestDoc docHash sha maxRetries now sourceUri sections store prior = some out ∧
      out.record.rag_ingestion_status = "completed" ∧
      out.record.rag_retry_count = 0 ∧
      out.record.rag_vector_ids =
        some (sections.filterMap (fun s => (store s).map (fun r => r.vector_id))) ∧
      (∀ v, v ∈ out.deletes ↔
        (v ∈ prior.elim [] oldVectorIds ∧
          v ∉ sections.filterMap (fun s => (store s).map (fun r => r.vector_id)))) := by
  unfold ingestDoc
  rw [if_neg hne]
  refine ⟨_, rfl, ?_⟩
  have hsucc : (sections.foldl (sectionStep store)
      ⟨upsertProcessing docHash sha now sourceUri (sections.map (fun s => s.text)) prior,
        0, [], []⟩).succeeded = sections.length := by
    rw [foldl_sectionStep_succeeded]
    simp only [Nat.zero_add]
    exact List.countP_eq_length.mpr (fun s hs => by simpa using hall s hs)
  simp only [ingestFinish]
  rw [if_pos hsucc]
  refine ⟨rfl, rfl, ?_, ?_⟩
  · show some ((sections.foldl (sectionStep store)
        ⟨upsertProcessing docHash sha now sourceUri (sections.map (fun s => s.text)) prior,
          0, [], []⟩).newIds) = _
    rw [foldl_sectionStep_newIds]
    simp
  · intro v
    show v ∈ (oldVectorIds (upsertProcessing docHash sha now sourceUri
        (sections.map (fun s => s.text)) prior)).filter
          (fun x => decide (x ∉ (sections.foldl (sectionStep store)
            ⟨upsertProcessing docHash sha now sourceUri (sections.map (fun s => s.text)) prior,
              0, [], []⟩).newIds)) ↔ _
    rw [List.mem_filter, upsert_oldVectorIds]
    simp only [foldl_sectionStep_newIds, List.nil_append, decide_eq_true_eq]

/-- Witness for C2: the full-success reconciliation invariants at a
one-section document over a prior row whose recorded set is
`{v0, vx}`. -/
theorem ingest_success_reconciles_witness :
    ∃ out, ingestDoc id id 3 5 exUri [sampleSection] alwaysOkStore
        (some priorCompleted) = some out ∧
      out.record.rag_ingestion_status = "completed" ∧
      out.record.rag_retry_count = 0 ∧
      out.record.rag_vector_ids =
        some ([sampleSection].filterMap (fun s => (alwaysOkStore s).map (fun r => r.vector_id))) ∧
      (∀ v, v ∈ out.deletes ↔
        (v ∈ (some priorCompleted).elim [] oldVectorIds ∧
          v ∉ [sampleSection].filterMap (fun s => (alwaysOkStore s).map (fun r => r.vector_id)))) :=
  ingest_success_reconciles id id 3 5 exUri [sampleSection] alwaysOkStore
    (some priorCompleted) (by decide) (by decide)

theorem cleanStale_find_none (now : Nat) (key : String) (store : List LockRow)
    (row : LockRow)
    (huniq : ∀ r ∈ store, r.lock_key = key → r = row)
    (hexp : row.expires_at < now) :
    (cleanStaleLocks now store).find? (fun r => r.lock_key == key) = none := by
  rw [List.find?_eq_none]
  intro x hx hkey
  rcases List.mem_filter.mp hx with ⟨hxs, hpred⟩
  have hxk : x.lock_key = key := by simpa using hkey
  have hxr : x = row := huniq x hxs hxk
  subst hxr
  simp only [Bool.not_eq_true', decide_eq_false_iff_not] at hpred
  omega

theorem cleanStale_find_some (now : Nat) (key : String) :
    ∀ (store : List LockRow) (row : LockRow),
      store.find? (fun r => r.lock_key == key) = some row →
      (∀ r ∈ store, r.lock_key = key → r = row) →
      ¬ row.expires_at < now →
      (cleanStaleLocks now store).find? (fun r => r.lock_key == key) = some row := by
  intro store
  induction store with
  | nil =>
    intro row hfind
    simp at hfind
  | cons a l ih =>
    intro row hfind huniq hexp
    by_cases hpa : (a.lock_key == key) = true
    · rw [List.find?_cons_of_pos (p := fun r : LockRow => r.lock_key == key) _ hpa] at hfind
      have hrow : a = row := by simpa using hfind
      subst hrow
      have hkeep : (!(decide (a.expires_at < now))) = true := by
        simpa using hexp
      unfold cleanStaleLocks
      rw [List.filter_cons, if_pos hkeep]
      exact List.find?_cons_of_pos (p := fun r : LockRow => r.lock_key == key) _ hpa
    · rw [List.find?_cons_of_neg (p := fun r : LockRow => r.lock_key == key) _ hpa] at hfind
      have huniq' : ∀ r ∈ l, r.lock_key = key → r = row :=
        fun r hr hk => huniq r (List.mem_cons_of_mem _ hr) hk
      have ihres := ih row hfind huniq' hexp
      unfold cleanStaleLocks at ihres ⊢
      rw [List.filter_cons]
      by_cases hkeep : (!(decide (a.expires_at < now))) = true
      · rw [if_pos hkeep,
          List.find?_cons_of_neg (p := fun r : LockRow => r.lock_key == key) _ hpa]
        exact ihres
      · rw [if_neg hkeep]
        exact ihres

theorem cleanStale_mem (now : Nat) (store : List LockRow) (row : LockRow)
    (hmem : row ∈ store) (hexp : ¬ row.expires_at < now) :
    row ∈ cleanStaleLocks now store := by
  exact List.mem_filter.mpr ⟨hmem, by simpa using hexp⟩

/-- C6: for every lock-store state containing a row for the requested
key (keys unique, as enforced by the primary key): if that row's
`expires_at` has passed, `acquire` deletes it and the acquisition
succeeds, inserting a new row owned by the caller; if it has not
passed, `acquire` raises `LockAlreadyHeld` carrying the current owner,
acquisition time and expiry, and the existing row is still present
unchanged. Consequently, of two acquisition attempts on the same key
where the first's lock has not expired, the first succeeds and the
second gets `LockAlreadyHeld`. -/
theorem lock_acquire_spec :
    (∀ (key owner : String) (now ttl : Nat) (store : List LockRow) (row : LockRow),
      store.find? (fun r => r.lock_key == key) = some row →
      (∀ r ∈ store, r.lock_key = key → r = row) →
      ((row.expires_at < now →
          acquire key owner now ttl store =
            .acquired (⟨key, owner, now, now + ttl⟩ :: cleanStaleLocks now store)) ∧
       (¬ row.expires_at < now →
          acquire key owner now ttl store =
            .alreadyHeld row.acquired_by row.acquired_at row.expires_at
              (cleanStaleLocks now store) ∧
          row ∈ cleanStaleLocks now store))) ∧
    (∀ (key owner owner2 : String) (now ttl now2 ttl2 : Nat),
      ¬ now + ttl < now2 →
      acquire key owner now ttl [] = .acquired [⟨key, owner, now, now + ttl⟩] ∧
      acquire key owner2 now2 ttl2 [⟨key, owner, now, now + ttl⟩] =
        .alreadyHeld owner now (now + ttl) [⟨key, owner, now, now + ttl⟩]) := by
  constructor
  · intro key owner now ttl store row hfind huniq
    constructor
    · intro hexp
      have hnone := cleanStale_find_none now key store row huniq hexp
      unfold acquire
      rw [acquireLoop.eq_def]
      split
      · rfl
      · rename_i row' heq
        rw [hnone] at heq
        cases heq
    · intro hexp
      have hsome := cleanStale_find_some now key store row hfind huniq hexp
      have hmem := cleanStale_mem now store row (List.mem_of_find?_eq_some hfind) hexp
      refine ⟨?_, hmem⟩
      unfold acquire
      rw [acquireLoop.eq_def]
      split
      · rename_i heq
        rw [hsome] at heq
        cases heq
      · rename_i row' heq
        rw [hsome] at heq
        cases heq
        rw [if_neg hexp]
  · intro key owner owner2 now ttl now2 ttl2 hlive
    constructor
    · unfold acquire cleanStaleLocks
      rw [acquireLoop.eq_def]
      simp
    · have hclean : cleanStaleLocks now2 [⟨key, owner, now, now + ttl⟩] =
          [⟨key, owner, now, now + ttl⟩] := by
        unfold cleanStaleLocks
        rw [List.filter_cons, if_pos (by simpa using hlive : (!(decide
          ((⟨key, owner, now, now + ttl⟩ : LockRow).expires_at < now2))) = true)]
        rfl
      have hsome : (cleanStaleLocks now2 [⟨key, owner, now, now + ttl⟩]).find?
          (fun r => r.lock_key == key) = some ⟨key, owner, now, now + ttl⟩ := by
        rw [hclean]
        exact List.find?_cons_of_pos (p := fun r : LockRow => r.lock_key == key) _ (by simp)
      unfold acquire
      rw [acquireLoop.eq_def]
      split
      · rename_i heq
        rw [hsome] at heq
        cases heq
      · rename_i row' heq
        rw [hsome] at heq
        cases heq
        rw [if_neg hlive]
        rw [hclean]

/-- Witness for C6: acquisition over a store holding an expired row for
the key succeeds with the caller's new row. -/
theorem lock_acquire_spec_witness :
    acquire "k" "me" 20 30 [⟨"k", "p1", 0, 10⟩] =
      .acquired (⟨"k", "me", 20, 50⟩ :: cleanStaleLocks 20 [⟨"k", "p1", 0, 10⟩]) :=
  ((lock_acquire_spec.1 "k" "me" 20 30 [⟨"k", "p1", 0, 10⟩] ⟨"k", "p1", 0, 10⟩
    (by decide) (by decide)).1) (by decide)

/-- C3 (code-bug evidence): the document id computed by SharePoint
change detection — `generate_document_id(title=sp_item.name,
url=sp_item.url)` — differs from the id computed by reconciliation —
`generate_document_id(title=source_uri, url=source_uri)` with
`source_uri = sp_item.url` — at a concrete library file (hash
abstraction instantiated to an injective function), so the row read by
change detection is not the row written by reconciliation; the two
derivations agree exactly when title and url coincide, as they do for
URL documents. -/
theorem document_id_detection_ingestion_mismatch :
    spDetectionDocumentId id "Policy.docx" "https://sp.example.com/Policy.docx" ≠
      ingestionDocumentId id "https://sp.example.com/Policy.docx" ∧
    (∀ (docHash : String → String) (u : String),
      spDetectionDocumentId docHash u u = ingestionDocumentId docHash u) := by
  constructor
  · decide
  · intro docHash u
    rfl

set_option maxRecDepth 200000

/-- C4 (code-bug evidence): a URL document whose first run fails every
section store call — leaving status `failed` with retry count 1, below
the ceiling 3 — and whose source input is unchanged is not selected by
the next run's change detector: `_ingest_to_rag` rewrites
`content_hash` from the normalized section text even on failure, the
unchanged scrape hashes to the same value, and `_should_process_url`
(which never consults `rag_ingestion_status` or the retry count)
returns false. -/
theorem failed_url_document_not_reselected :
    c4run.map (fun out =>
      (out.record.rag_ingestion_status, out.record.rag_retry_count,
        urlChangeDecision id false (some aText) (some out.record))) =
      some ("failed", 1, false) := by
  decide

/-- C5 (code-bug evidence): the third consecutive totally-failed
reconciliation (ceiling 3) does set status `permanently_failed` with
retry count 3 — but a subsequent run still selects the document for
processing whenever its content hash differs (`_should_process_url`)
or its timestamp is newer (`_sp_item_needs_processing`), because
neither detector consults `rag_ingestion_status`. -/
theorem permanently_failed_document_still_selected :
    c5run.map (fun out =>
      (out.record.rag_ingestion_status, out.record.rag_retry_count,
        urlChangeDecision id false (some bText) (some out.record),
        spItemNeedsProcessing false (some out.record) (some 99))) =
      some ("permanently_failed", 3, true, true) := by
  decide

/-- C7 (code-bug evidence): an unchanged URL whose raw scrape carries
trailing whitespace is reprocessed on the second run: the first run
succeeds and stores `content_hash` over the normalized section text
(`aText`), the second run's detector hashes the raw scrape (`cText`)
and sees a mismatch, so the document is selected again and its sections
re-stored; the stored `content_hash` is nonetheless identical after
both runs. -/
theorem second_run_not_skipped :
    c7run1.map (fun out =>
      (out.record.rag_ingestion_status, out.record.content_hash,
        urlChangeDecision id false (some cText) (some out.record))) =
      some ("completed", some aText, true) ∧
    c7run2.map (fun out => out.record.content_hash) = some (some aText) := by
  constructor <;> decide

/-- Witness for C9 (amended): the stripped-fallback decomposition at the
concrete window text with surrounding spaces. -/
theorem extract_fallback_strips_only_whitespace_witness :
    extractFromWindow none " hi " = [pyStrip " hi "] ∧
    ∃ pre suf : List Char, (∀ c ∈ pre, isPyWs c = true) ∧ (∀ c ∈ suf, isPyWs c = true) ∧
      (" hi " : String).data = pre ++ (pyStrip " hi ").data ++ suf :=
  extract_fallback_strips_only_whitespace " hi "
